import Mathlib

/-!
Shallow embedding of the Salino-skool progress-tracking, lesson-ordering,
resource-scoping and video-classification logic, together with proofs of the
specification claims about them.

The definitions mirror:
* `src/context/CourseContext.tsx` (client progress aggregation:
  `loadProgress`, `calculateProgress`, `markLessonComplete`,
  `markLessonIncomplete`),
* `server/src/routes/courses.ts` (progress upsert route, lesson creation),
* `src/pages/AdminCourseEdit.tsx` (`moveLesson` reordering),
* `server/src/routes/resources.ts` (resource scoping query),
* `src/pages/CourseDetail.tsx` (video URL classification).
-/

namespace Salino

/-! ## A small model of the JavaScript numbers produced by the percentage
computation.  `completedLessons / course.lessons.length * 100` is evaluated
with JS semantics: `0 / 0 = NaN`, `k / 0 = Infinity` for `k > 0`, and
`Math.round` is `⌊x + 1/2⌋` on finite numbers, fixing `NaN`/`Infinity`. -/

inductive JsNum where
  | nan
  | inf
  | num (q : ℚ)
deriving DecidableEq

/-- JS division of the two non-negative array lengths used by the code. -/
def jsDivNat (a b : ℕ) : JsNum :=
  if b = 0 then (if a = 0 then .nan else .inf) else .num ((a : ℚ) / (b : ℚ))

/-- Multiplication by the literal `100`. -/
def jsMul100 : JsNum → JsNum
  | .nan => .nan
  | .inf => .inf
  | .num q => .num (q * 100)

/-- Model of `Math.round`: round-half-up on finite numbers, identity on `NaN`/`Infinity`. -/
def jsRound : JsNum → JsNum
  | .nan => .nan
  | .inf => .inf
  | .num q => .num ((⌊q + 1/2⌋ : ℤ) : ℚ)

/-- The percentage expression `Math.round((completedLessons / course.lessons.length) * 100)`. -/
def jsPercentage (completed total : ℕ) : JsNum :=
  jsRound (jsMul100 (jsDivNat completed total))

/-! ## Data model -/

/-- A lesson as the client sees it (`id` plus its stored `order_index`). -/
structure Lesson where
  id : String
  order_index : ℤ
deriving DecidableEq

/-- A course: its id and its lesson list. -/
structure Course where
  id : String
  lessons : List Lesson
deriving DecidableEq

/-- One row of the progress query result consumed by `loadProgress`
(`lesson_id`, `completed`; `completed_at` is not read by the aggregation). -/
structure ClientRec where
  lesson_id : String
  completed : Bool
deriving DecidableEq

/-- The derived `CourseProgress` object built by the client. -/
structure CourseProgressJs where
  courseId : String
  lessonProgress : List (String × Bool)
  completedLessons : ℕ
  totalLessons : ℕ
  percentage : JsNum
deriving DecidableEq

/-! ## JS-object operations on the `lessonProgress` map.
A JS object is modelled as an insertion-ordered association list with unique
keys; `{...m, [k]: v}` overwrites in place or appends. -/

/-- The spread update `{...m, [k]: v}` on a key-unique insertion-ordered object. -/
def setKey (m : List (String × Bool)) (k : String) (v : Bool) : List (String × Bool) :=
  if m.any (fun p => p.1 = k) then
    m.map (fun p => if p.1 = k then (k, v) else p)
  else m ++ [(k, v)]

/-- The count `Object.values(m).filter(Boolean).length`. -/
def countTrue (m : List (String × Bool)) : ℕ :=
  (m.filter (fun p => p.2)).length

/-- The `lessonProgress` object built in `loadProgress`:
`courseProgress.forEach(item => { if (item.completed) lessonProgress[item.lesson_id] = true })`. -/
def buildLessonProgress (records : List ClientRec) : List (String × Bool) :=
  records.foldl (fun m r => if r.completed then setKey m r.lesson_id true else m) []

/-- The per-course progress computed by `loadProgress` from the record set. -/
def loadProgressCourse (courseId : String) (lessons : List Lesson)
    (records : List ClientRec) : CourseProgressJs :=
  let lp := buildLessonProgress records
  let completed := countTrue lp
  ⟨courseId, lp, completed, lessons.length, jsPercentage completed lessons.length⟩

/-- The zero progress returned by `calculateProgress` when the course is missing. -/
def emptyProgress (courseId : String) : CourseProgressJs :=
  ⟨courseId, [], 0, 0, .num 0⟩

/-- Lookup in the client's `progress` state object. -/
def lookupProgress (m : List (String × CourseProgressJs)) (cid : String) :
    Option CourseProgressJs :=
  (m.find? (fun p => p.1 = cid)).map (fun p => p.2)

/-- Model of `calculateProgress(courseId)` from `CourseContext.tsx`. -/
def calculateProgress (courses : List Course)
    (progressMap : List (String × CourseProgressJs)) (courseId : String) :
    CourseProgressJs :=
  match courses.find? (fun c => c.id = courseId) with
  | none => emptyProgress courseId
  | some course =>
    let current := (lookupProgress progressMap courseId).getD
      ⟨courseId, [], 0, course.lessons.length, .num 0⟩
    let completed := countTrue current.lessonProgress
    { current with
        completedLessons := completed
        totalLessons := course.lessons.length
        percentage := jsPercentage completed course.lessons.length }

end Salino

namespace Salino

/-! ## Server-side completion store
(`POST /:courseId/lessons/:lessonId/progress` in `routes/courses.ts`). -/

/-- A row of the `course_progress` table.  The `id` column is the string
`userId-courseId-lessonId` built by the insert. -/
structure ProgRow where
  id : String
  user_id : String
  course_id : String
  lesson_id : String
  completed : Bool
  completed_at : Option ℕ
deriving DecidableEq

/-- The conflict key `(user_id, course_id, lesson_id)`. -/
def isKey (u c l : String) (r : ProgRow) : Bool :=
  r.user_id = u && r.course_id = c && r.lesson_id = l

/-- The upsert `INSERT ... ON CONFLICT(user_id, course_id, lesson_id) DO UPDATE SET
completed = 1, completed_at = CURRENT_TIMESTAMP`. -/
def setCompletionTrue (db : List ProgRow) (u c l : String) (t : ℕ) : List ProgRow :=
  if db.any (isKey u c l) then
    db.map (fun r => if isKey u c l r then
      { r with completed := true, completed_at := some t } else r)
  else db ++ [⟨u ++ "-" ++ c ++ "-" ++ l, u, c, l, true, some t⟩]

/-- The update `UPDATE course_progress SET completed = 0, completed_at = NULL WHERE ...`. -/
def setCompletionFalse (db : List ProgRow) (u c l : String) : List ProgRow :=
  db.map (fun r => if isKey u c l r then
    { r with completed := false, completed_at := none } else r)

/-- The route's possible JSON responses: it either answers
`{ success: true }` or `500` when the database call throws. -/
inductive ApiResp where
  | success
  | serverError
deriving DecidableEq

/-- A row of the `lessons` table as the progress route's environment sees
it: its primary key `id` (what the foreign key references) and the
`course_id` it belongs to. -/
structure LessonRow where
  id : String
  course_id : String
deriving DecidableEq

/-- The handler of `POST /:courseId/lessons/:lessonId/progress` together
with the `course_progress` constraints of `database/init.ts` that the store
enforces: `FOREIGN KEY (user_id) REFERENCES users(id)`,
`FOREIGN KEY (course_id) REFERENCES courses(id)`,
`FOREIGN KEY (lesson_id) REFERENCES lessons(id)` and
`UNIQUE(user_id, course_id, lesson_id)`.  The handler itself performs no
lesson or course lookup.  For `completed = true` the
`INSERT ... ON CONFLICT DO UPDATE` either updates the existing key row
(only `completed`/`completed_at` change, so no foreign key is re-checked)
or inserts a fresh row, whose three foreign-key columns the store
validates; a violation throws and the `catch` answers
`500 Internal server error` with nothing stored.  For `completed = false`
the `UPDATE` touches no foreign-key column and always succeeds. -/
def postProgress (users courses : List String) (lessonsTbl : List LessonRow)
    (db : List ProgRow) (u c l : String) (completed : Bool) (t : ℕ) :
    List ProgRow × ApiResp :=
  if completed then
    if db.any (isKey u c l) then (setCompletionTrue db u c l t, .success)
    else if users.contains u && courses.contains c &&
        lessonsTbl.any (fun r => r.id = l) then
      (setCompletionTrue db u c l t, .success)
    else (db, .serverError)
  else (setCompletionFalse db u c l, .success)

/-- Erase the `completed_at` timestamps (the only field idempotence ignores). -/
def stripTimes (db : List ProgRow) : List ProgRow :=
  db.map (fun r => { r with completed_at := none })

/-- Model of `GET /:courseId/progress`: the rows for one `(user, course)`, projected to
the fields the client aggregation reads. -/
def rowsFor (db : List ProgRow) (u c : String) : List ClientRec :=
  (db.filter (fun r => r.user_id = u && r.course_id = c)).map
    (fun r => ⟨r.lesson_id, r.completed⟩)

/-! ## Lesson reordering (`moveLesson` in `AdminCourseEdit.tsx`) -/

inductive Direction where
  | up
  | down
deriving DecidableEq

/-- One step of the stable ascending insertion modelling
`[...course.lessons].sort((a, b) => a.order_index - b.order_index)`:
an element is inserted after every strictly smaller element, so equal
`order_index` values keep their incoming relative order. -/
def insertAsc (x : Lesson) : List Lesson → List Lesson
  | [] => [x]
  | y :: ys => if y.order_index < x.order_index then y :: insertAsc x ys else x :: y :: ys

/-- Stable sort of the lesson list by ascending `order_index`. -/
def sortAsc (ls : List Lesson) : List Lesson :=
  ls.foldr insertAsc []

/-- The neighbour index `direction === 'up' ? idx - 1 : idx + 1` as a (possibly negative) index. -/
def swapTarget (dir : Direction) (idx : ℕ) : ℤ :=
  match dir with
  | .up => (idx : ℤ) - 1
  | .down => (idx : ℤ) + 1

/-- The guard part of `moveLesson`: sort, locate the lesson, bounds-check the
neighbour index, and return the pair `(a, b) = (sorted[idx], sorted[swapIdx])`
whose `order_index` values the two writes will exchange; `none` on all the
early-return paths (`idx < 0`, `swapIdx < 0`, `swapIdx >= sorted.length`). -/
def moveLessonPlan (lessons : List Lesson) (lid : String) (dir : Direction) :
    Option (Lesson × Lesson) :=
  match (sortAsc lessons).findIdx? (fun l => l.id = lid) with
  | none => none
  | some idx =>
    if swapTarget dir idx < 0 then none
    else
      match (sortAsc lessons).get? (swapTarget dir idx).toNat,
            (sortAsc lessons).get? idx with
      | some b, some a => some (a, b)
      | _, _ => none

/-- The server's `UPDATE lessons SET order_index = ? WHERE id = ? AND
course_id = ?`, applied to the course's lesson rows. -/
def writeOrder (db : List Lesson) (lid : String) (v : ℤ) : List Lesson :=
  db.map (fun l => if l.id = lid then { l with order_index := v } else l)

/-- The lesson table after `moveLesson` when both `updateLesson` writes
succeed: first `a.order_index := b.order_index`, then
`b.order_index := a.order_index` (`a`, `b` captured before either write). -/
def moveLessonDb (lessons : List Lesson) (lid : String) (dir : Direction) :
    List Lesson :=
  match moveLessonPlan lessons lid dir with
  | none => lessons
  | some (a, b) => writeOrder (writeOrder lessons a.id b.order_index) b.id a.order_index

/-- Outcome of one `api.updateLesson` call: `ok`, or a response carrying an
`error` string. -/
inductive ApiResult where
  | ok
  | err (msg : String)
deriving DecidableEq

/-- Apply a write when and only when its API call succeeded. -/
def applyWrite (db : List Lesson) (lid : String) (v : ℤ) : ApiResult → List Lesson
  | .ok => writeOrder db lid v
  | .err _ => db

/-- Model of `moveLesson` with explicit outcomes for the two writes.  Mirrors the
source exactly: the first call's result is discarded
(`await api.updateLesson(...)` with no binding), and the user-visible error
is `resB.error` alone (`if (resB.error) setError(resB.error)`).
Returns the final lesson table and the surfaced error. -/
def moveLessonRun (lessons : List Lesson) (lid : String) (dir : Direction)
    (r1 r2 : ApiResult) : List Lesson × Option String :=
  match moveLessonPlan lessons lid dir with
  | none => (lessons, none)
  | some (a, b) =>
    let db1 := applyWrite lessons a.id b.order_index r1
    let db2 := applyWrite db1 b.id a.order_index r2
    (db2, match r2 with | .ok => none | .err m => some m)

/-! ## Order assignment for a new lesson
(`POST /:courseId/lessons` in `routes/courses.ts`). -/

/-- The requested `order_index` after the route's
`order_index !== undefined ? Number(order_index) : null` conversion:
`absent` models `null`, `invalid` a `NaN` conversion result, `valid n` a
numeric value. -/
inductive ReqOrder where
  | absent
  | invalid
  | valid (n : ℤ)
deriving DecidableEq

/-- The query `SELECT COALESCE(MAX(order_index), 0) FROM lessons WHERE course_id = ?`. -/
def maxOrderOr0 : List ℤ → ℤ
  | [] => 0
  | x :: xs => xs.foldl max x

/-- The route's `orderToUse`: the requested order verbatim when it is a valid number,
otherwise `COALESCE(MAX(order_index), 0) + 1`. -/
def assignOrderForNewLesson (req : ReqOrder) (existing : List ℤ) : ℤ :=
  match req with
  | .valid n => n
  | _ => maxOrderOr0 existing + 1

/-! ## Resource scoping (`GET /` in `routes/resources.ts`) -/

/-- A row of the `resources` table (the fields the scoping query reads). -/
structure Resource where
  id : String
  course_id : String
  lesson_id : Option String
  created_at : ℕ
deriving DecidableEq

/-- The `WHERE` clause built by the route when `course_id` is present:
`course_id = ?` and, when `lesson_id` is present,
`(lesson_id = ? OR lesson_id IS NULL)`. -/
def matchesScope (cid : String) (lid : Option String) (r : Resource) : Bool :=
  r.course_id = cid &&
    (match lid with
     | some l => r.lesson_id = some l || r.lesson_id = none
     | none => true)

/-- One step of sorting by `created_at` descending (`ORDER BY created_at DESC`). -/
def insertDesc (r : Resource) : List Resource → List Resource
  | [] => [r]
  | x :: xs => if x.created_at < r.created_at then r :: x :: xs else x :: insertDesc r xs

/-- Sort a result set by `created_at` descending. -/
def sortDesc (rs : List Resource) : List Resource :=
  rs.foldr insertDesc []

/-- The full query: filter by scope, order newest first. -/
def resolveVisible (rs : List Resource) (cid : String) (lid : Option String) :
    List Resource :=
  sortDesc (rs.filter (matchesScope cid lid))

/-! ## Video URL classification (`CourseDetail.tsx` render logic).
JS string methods are modelled on `List Char`: `includes`, first-occurrence
`replace`, and `split`. -/

/-- Strip `pat` from the front of `s`, if it starts with it. -/
def dropFront : List Char → List Char → Option (List Char)
  | [], s => some s
  | _ :: _, [] => none
  | p :: ps, c :: cs => if p = c then dropFront ps cs else none

/-- Split at the first occurrence of `pat`: the part before and the part
after, or `none` when `pat` does not occur. -/
def splitFirst (pat : List Char) : List Char → Option (List Char × List Char)
  | [] => (dropFront pat []).map (fun r => ([], r))
  | c :: cs =>
    match dropFront pat (c :: cs) with
    | some rest => some ([], rest)
    | none => (splitFirst pat cs).map (fun pr => (c :: pr.1, pr.2))

/-- Model of `s.includes(pat)`. -/
def hasSubstr (s pat : String) : Bool :=
  (splitFirst pat.data s.data).isSome

/-- Model of `s.replace(pat, repl)`: JS `String.replace` with a string pattern
replaces only the first occurrence. -/
def replaceFirst (s pat repl : String) : String :=
  match splitFirst pat.data s.data with
  | none => s
  | some (pre, post) => (pre ++ repl.data ++ post).asString

/-- Fuelled worker for `s.split(pat)`. -/
def jsSplitF : ℕ → List Char → List Char → List (List Char)
  | 0, _, s => [s]
  | n + 1, pat, s =>
    match splitFirst pat s with
    | none => [s]
    | some (pre, post) => pre :: jsSplitF n pat post

/-- Model of `s.split(pat)` for a non-empty pattern (every pattern used below is
non-empty, so the fuel `s.length + 1` always suffices). -/
def jsSplit (s pat : String) : List String :=
  (jsSplitF (s.data.length + 1) pat.data s.data).map List.asString

/-- The five ways the render classifies `videoUrl`. -/
inductive VideoView where
  | loomEmbed (src : String)
  | fileVideo (src : String)
  | youtubeEmbed (src : String)
  | vimeoEmbed (src : String)
  | placeholder
deriving DecidableEq

/-- The YouTube iframe `src` expression. -/
def youtubeSrc (url : String) : String :=
  if hasSubstr url "youtu.be/" then
    "https://www.youtube.com/embed/" ++
      ((jsSplit ((jsSplit url "youtu.be/").getD 1 "") "?").getD 0 "")
  else if hasSubstr url "watch?v=" then
    (jsSplit (replaceFirst url "watch?v=" "embed/") "&").getD 0 ""
  else
    replaceFirst url "youtu.be/" "youtube.com/embed/"

/-- The chain of `includes` conditions of the video section, in source order:
Loom share link, Loom CDN / direct MP4, YouTube, Vimeo, placeholder. -/
def classifyVideo (url : String) : VideoView :=
  if hasSubstr url "loom.com/share/" then
    .loomEmbed (replaceFirst url "loom.com/share/" "loom.com/embed/")
  else if hasSubstr url "cdn.loom.com" || hasSubstr url ".mp4" then
    .fileVideo url
  else if hasSubstr url "youtube.com" || hasSubstr url "youtu.be" then
    .youtubeEmbed (youtubeSrc url)
  else if hasSubstr url "vimeo.com" then
    .vimeoEmbed ("https://player.vimeo.com/video/" ++ ((jsSplit url "/").getLastD ""))
  else
    .placeholder

/-! ## Concrete fixtures used by the witnesses and counterexamples. -/

/-- Three lessons `[A:1, B:2, C:3]`. -/
def demoLessons : List Lesson :=
  [⟨"A", 1⟩, ⟨"B", 2⟩, ⟨"C", 3⟩]

/-- A course with zero lessons. -/
def emptyCourse : Course :=
  ⟨"c1", []⟩

/-- A lessons table holding one lesson `L9` that belongs to course `c2`:
`L9` exists for the foreign key, but no lesson with id `L9` belongs to
course `c1`. -/
def demoLessonTable : List LessonRow :=
  [⟨"L9", "c2"⟩]

/-- Three resources of course `c1`: one scoped to lesson `L1`, one scoped to
lesson `L2`, one course-wide. -/
def demoResources : List Resource :=
  [⟨"r1", "c1", some "L1", 10⟩, ⟨"r2", "c1", some "L2", 20⟩, ⟨"r3", "c1", none, 30⟩]

/-! # Theorems -/

/-! ## Lemmas about the completion upsert -/

/-- After the upsert, a row with the upserted key exists. -/
theorem setCompletionTrue_any (db : List ProgRow) (u c l : String) (t : ℕ) :
    (setCompletionTrue db u c l t).any (isKey u c l) = true := by
  unfold setCompletionTrue
  by_cases h : db.any (isKey u c l) = true
  · rw [if_pos h]
    obtain ⟨r, hr, hkey⟩ := List.any_eq_true.1 h
    refine List.any_eq_true.2 ⟨_, List.mem_map_of_mem _ hr, ?_⟩
    simp only [hkey, if_true]
    simpa [isKey] using hkey
  · rw [if_neg h]
    refine List.any_eq_true.2 ⟨_, List.mem_append_right _ (List.mem_singleton_self _), ?_⟩
    simp [isKey]

/-- After the upsert, every row with the upserted key is completed. -/
theorem setCompletionTrue_key_completed (db : List ProgRow) (u c l : String) (t : ℕ) :
    ∀ r ∈ setCompletionTrue db u c l t, isKey u c l r = true → r.completed = true := by
  intro r hr hkey
  unfold setCompletionTrue at hr
  by_cases h : db.any (isKey u c l) = true
  · rw [if_pos h] at hr
    obtain ⟨s, _, rfl⟩ := List.mem_map.1 hr
    by_cases hs : isKey u c l s = true
    · simp [hs]
    · rw [if_neg hs] at hkey
      exact absurd hkey hs
  · rw [if_neg h] at hr
    rcases List.mem_append.1 hr with hmem | hmem
    · exact absurd hkey (by
        intro hk
        exact h (List.any_eq_true.2 ⟨r, hmem, hk⟩))
    · rw [List.mem_singleton.1 hmem]

/-- C2 amended: the handler performs no course-membership check, so the
outcome is decided by the `course_progress` foreign keys alone.  With
`completed = true`: when the lesson id is absent from the `lessons` table
(deleted or never existing) and no progress row exists under the key, the
insert violates the `lesson_id` foreign key and the route answers
`500 Internal server error` with no state change — a generic storage
failure, not a `LessonNotFound`; when the lesson id does exist in the
`lessons` table — also when every such lesson belongs to a different
course, the moved case — the route stores a completed row keyed
`(userId, courseId, lessonId)` and answers `{ success: true }`, a silent
success.  With `completed = false` the route always answers success. -/
theorem postProgress_membership_unchecked (users courses : List String)
    (tbl : List LessonRow) (db : List ProgRow) (u c l : String) (t : ℕ)
    (hu : users.contains u = true) (hc : courses.contains c = true) :
    (tbl.any (fun r => r.id = l) = false → db.any (isKey u c l) = false →
      postProgress users courses tbl db u c l true t = (db, ApiResp.serverError)) ∧
    (tbl.any (fun r => r.id = l) = true →
      (postProgress users courses tbl db u c l true t).2 = ApiResp.success ∧
      (postProgress users courses tbl db u c l true t).1.any
        (fun r => isKey u c l r && r.completed) = true) ∧
    (postProgress users courses tbl db u c l false t).2 = ApiResp.success := by
  refine ⟨?_, ?_, by simp [postProgress]⟩
  · intro hl hk
    simp [postProgress, hl, hk, hu, hc]
  · intro hl
    have hrun : postProgress users courses tbl db u c l true t =
        (setCompletionTrue db u c l t, ApiResp.success) := by
      by_cases hk : db.any (isKey u c l) = true
      · simp [postProgress, hk]
      · have hu' : u ∈ users := by simpa using hu
        have hc' : c ∈ courses := by simpa using hc
        simp [postProgress, hk, hu', hc', hl]
    rw [hrun]
    obtain ⟨r, hr, hkey⟩ := List.any_eq_true.1 (setCompletionTrue_any db u c l t)
    exact ⟨rfl, List.any_eq_true.2 ⟨r, hr, by
      simp [hkey, setCompletionTrue_key_completed db u c l t r hr hkey]⟩⟩

/-- C2 counterexample: lesson `L9` exists in the `lessons` table but belongs
to course `c2`, so no lesson with id `L9` belongs to course `c1`; yet
completing `L9` under course `c1` stores a completion row and answers
`{ success: true }` — the route neither fails with `LessonNotFound` nor
leaves the store unchanged. -/
theorem postProgress_moved_lesson_succeeds :
    demoLessonTable.all (fun r => !(decide (r.id = "L9")) ||
      !(decide (r.course_id = "c1"))) = true ∧
    (postProgress ["u1"] ["c1", "c2"] demoLessonTable [] "u1" "c1" "L9" true 7).2 =
      ApiResp.success ∧
    (postProgress ["u1"] ["c1", "c2"] demoLessonTable [] "u1" "c1" "L9" true 7).1 =
      [⟨"u1-c1-L9", "u1", "c1", "L9", true, some 7⟩] := by
  decide

/-- Witness for `postProgress_membership_unchecked` at concrete inputs: the
moved lesson `L9` is silently accepted, the truly absent lesson `ghost`
yields a 500 with nothing stored. -/
theorem postProgress_membership_unchecked_witness :
    (postProgress ["u1"] ["c1", "c2"] demoLessonTable [] "u1" "c1" "L9" true 3).2 =
      ApiResp.success ∧
    postProgress ["u1"] ["c1", "c2"] demoLessonTable [] "u1" "c1" "ghost" true 3 =
      ([], ApiResp.serverError) := by
  have h := postProgress_membership_unchecked ["u1"] ["c1", "c2"] demoLessonTable []
    "u1" "c1" "L9" 3 (by decide) (by decide)
  have h' := postProgress_membership_unchecked ["u1"] ["c1", "c2"] demoLessonTable []
    "u1" "c1" "ghost" 3 (by decide) (by decide)
  exact ⟨(h.2.1 (by decide)).1, h'.1 (by decide) (by decide)⟩

/-! ## C1: percentage of a course with zero lessons -/

/-- C1: for a course that exists but has zero lessons, both the client-side
recomputation (`calculateProgress`) and the aggregation performed after
loading records (`loadProgress`) produce `Math.round(0 / 0 * 100) = NaN`,
not `0`; the claimed `percentage = 0` is therefore false on the code.  With
completed records present the value is `Infinity`, still not `0`. -/
theorem zeroLesson_percentage_is_nan :
    (calculateProgress [emptyCourse] [] "c1").percentage = JsNum.nan ∧
    (loadProgressCourse "c1" [] []).percentage = JsNum.nan ∧
    (loadProgressCourse "c1" [] [⟨"zombie", true⟩]).percentage = JsNum.inf ∧
    JsNum.nan ≠ JsNum.num 0 ∧ JsNum.inf ≠ JsNum.num 0 := by
  decide

/-! ## C5: absence of a record aggregates like an explicit `completed = false` -/

/-- C5: inserting an explicit `completed = false` record for lesson `L`
anywhere in the record set leaves the aggregated `CourseProgress` — the
whole structure: `lessonProgress`, `completedLessons`, `totalLessons` and
`percentage` — exactly as it is without any record for `L`. -/
theorem absence_equals_false (cid : String) (lessons : List Lesson)
    (r₁ r₂ : List ClientRec) (L : String) :
    loadProgressCourse cid lessons (r₁ ++ ⟨L, false⟩ :: r₂) =
      loadProgressCourse cid lessons (r₁ ++ r₂) := by
  simp [loadProgressCourse, buildLessonProgress, List.foldl_append]

/-! ## C4: idempotence of completing a lesson -/

/-- Upserting into a store that already holds a completed row under the key
changes nothing beyond `completed_at`. -/
theorem stripTimes_setCompletionTrue_done (db : List ProgRow) (u c l : String)
    (t : ℕ)
    (hany : db.any (isKey u c l) = true)
    (hdone : ∀ r ∈ db, isKey u c l r = true → r.completed = true) :
    stripTimes (setCompletionTrue db u c l t) = stripTimes db := by
  unfold setCompletionTrue stripTimes
  rw [if_pos hany, List.map_map]
  refine List.map_congr_left ?_
  intro r hr
  by_cases hs : isKey u c l r = true
  · have := hdone r hr hs
    simp only [Function.comp_apply, if_pos hs]
    cases r
    simp_all
  · simp only [Function.comp_apply, if_neg hs]

/-- Repeating the upsert any number of further times changes nothing beyond
`completed_at`. -/
theorem stripTimes_foldl_setCompletionTrue (u c l : String) (ts : List ℕ) :
    ∀ db : List ProgRow, db.any (isKey u c l) = true →
      (∀ r ∈ db, isKey u c l r = true → r.completed = true) →
      stripTimes (ts.foldl (fun d t => setCompletionTrue d u c l t) db) = stripTimes db := by
  induction ts with
  | nil => intro db _ _; rfl
  | cons t ts ih =>
    intro db hany hdone
    simp only [List.foldl_cons]
    rw [ih (setCompletionTrue db u c l t) (setCompletionTrue_any db u c l t)
      (setCompletionTrue_key_completed db u c l t),
      stripTimes_setCompletionTrue_done db u c l t hany hdone]

/-- The rows served to the client do not depend on the timestamps. -/
theorem rowsFor_stripTimes (db : List ProgRow) (u c : String) :
    rowsFor (stripTimes db) u c = rowsFor db u c := by
  induction db with
  | nil => rfl
  | cons r db ih =>
    simp only [stripTimes, List.map_cons, rowsFor, List.filter_cons] at ih ⊢
    by_cases h : (r.user_id = u && r.course_id = c) = true
    · simp only [h, if_pos] at ih ⊢
      simpa [rowsFor, stripTimes] using congrArg (List.cons (⟨r.lesson_id, r.completed⟩ : ClientRec)) ih
    · simp only [h] at ih ⊢
      simpa [rowsFor, stripTimes] using ih

/-- Stores equal up to timestamps serve the same client rows. -/
theorem rowsFor_congr (db db' : List ProgRow) (u c : String)
    (h : stripTimes db = stripTimes db') : rowsFor db u c = rowsFor db' u c := by
  rw [← rowsFor_stripTimes db, h, rowsFor_stripTimes]

/-- One application of the idempotent map update `{...m, [l]: true}` on a map
that was just updated is the identity. -/
theorem setKey_setKey (m : List (String × Bool)) (l : String) (v : Bool) :
    setKey (setKey m l v) l v = setKey m l v := by
  have hany : (setKey m l v).any (fun p => p.1 = l) = true := by
    unfold setKey
    by_cases h : m.any (fun p => p.1 = l) = true
    · rw [if_pos h]
      obtain ⟨p, hp, hpl⟩ := List.any_eq_true.1 h
      refine List.any_eq_true.2 ⟨_, List.mem_map_of_mem _ hp, ?_⟩
      have hpl' := of_decide_eq_true hpl
      simp [hpl']
    · rw [if_neg h]
      exact List.any_eq_true.2 ⟨_, List.mem_append_right _ (List.mem_singleton_self _), by simp⟩
  have hval : ∀ p ∈ setKey m l v, p.1 = l → p = (l, v) := by
    intro p hp hpl
    unfold setKey at hp
    by_cases h : m.any (fun p => p.1 = l) = true
    · rw [if_pos h] at hp
      obtain ⟨q, _, rfl⟩ := List.mem_map.1 hp
      by_cases hq : (q.1 = l)
      · simp [hq]
      · rw [if_neg (by simpa using hq)] at hpl ⊢
        exact absurd hpl hq
    · rw [if_neg h] at hp
      rcases List.mem_append.1 hp with hmem | hmem
      · exact absurd (List.any_eq_true.2 ⟨p, hmem, by simpa using hpl⟩) h
      · exact List.mem_singleton.1 hmem
  conv_lhs => rw [setKey, if_pos hany]
  refine (List.map_congr_left fun p hp => ?_).trans (List.map_id _)
  by_cases hpl : (p.1 = l)
  · rw [if_pos hpl, id_eq]
    exact (hval p hp hpl).symm
  · rw [if_neg hpl, id_eq]

/-- C4: completing the same lesson `N ≥ 1` times in a row — one call with
timestamp `t`, then any further sequence `ts` of calls — leaves the stored
completion state identical up to `completed_at`, and the `CourseProgress`
the client aggregates from the served rows is exactly the one obtained
after the single call.  The client's own optimistic map update
`{...lessonProgress, [lessonId]: true}` is likewise idempotent. -/
theorem setCompletion_true_idempotent (db : List ProgRow) (u c l : String)
    (t : ℕ) (ts : List ℕ) (cid : String) (lessons : List Lesson)
    (m : List (String × Bool)) :
    stripTimes (ts.foldl (fun d t' => setCompletionTrue d u c l t')
        (setCompletionTrue db u c l t)) =
      stripTimes (setCompletionTrue db u c l t) ∧
    loadProgressCourse cid lessons
        (rowsFor (ts.foldl (fun d t' => setCompletionTrue d u c l t')
          (setCompletionTrue db u c l t)) u c) =
      loadProgressCourse cid lessons (rowsFor (setCompletionTrue db u c l t) u c) ∧
    setKey (setKey m l true) l true = setKey m l true := by
  have h := stripTimes_foldl_setCompletionTrue u c l ts
    (setCompletionTrue db u c l t) (setCompletionTrue_any db u c l t)
    (setCompletionTrue_key_completed db u c l t)
  exact ⟨h, by rw [rowsFor_congr _ _ u c h], setKey_setKey m l true⟩

/-! ## Lemmas about the lesson sort and the two order writes -/

/-- Inserting into the sorted run is a permutation step. -/
theorem insertAsc_perm (x : Lesson) (l : List Lesson) :
    List.Perm (insertAsc x l) (x :: l) := by
  induction l with
  | nil => rfl
  | cons y ys ih =>
    unfold insertAsc
    by_cases h : y.order_index < x.order_index
    · rw [if_pos h]
      exact (ih.cons y).trans (List.Perm.swap x y ys)
    · rw [if_neg h]

/-- The client-side sort is a permutation of the lesson list. -/
theorem sortAsc_perm (l : List Lesson) : List.Perm (sortAsc l) l := by
  induction l with
  | nil => rfl
  | cons x xs ih => exact (insertAsc_perm x (sortAsc xs)).trans (ih.cons x)

/-- Two sequential single-row order writes to two distinct ids act like one
simultaneous two-row update. -/
theorem writeOrder_writeOrder (db : List Lesson) (i j : String) (vi vj : ℤ)
    (hij : i ≠ j) :
    writeOrder (writeOrder db i vi) j vj =
      db.map (fun l => if l.id = i then { l with order_index := vi }
        else if l.id = j then { l with order_index := vj } else l) := by
  unfold writeOrder
  rw [List.map_map]
  refine List.map_congr_left fun l _ => ?_
  by_cases h1 : l.id = i
  · simp [h1, hij]
  · by_cases h2 : l.id = j
    · simp [h1, h2, Ne.symm hij]
    · simp [h1, h2]

/-- C6: when the sort places the moved lesson at `idx` and the neighbour
index `idx ± 1` is in range, `moveLesson` exchanges exactly the two stored
`order_index` values of `a = sorted[idx]` (the lesson asked to move) and
`b = sorted[idx ± 1]`, leaving every other lesson row untouched; nothing is
relabelled to `1..n`. -/
theorem moveLesson_swaps_orders (lessons : List Lesson) (lid : String)
    (dir : Direction) (idx : ℕ) (a b : Lesson)
    (hids : (lessons.map Lesson.id).Nodup)
    (hfind : (sortAsc lessons).findIdx? (fun l => l.id = lid) = some idx)
    (hnn : 0 ≤ swapTarget dir idx)
    (ha : (sortAsc lessons).get? idx = some a)
    (hb : (sortAsc lessons).get? (swapTarget dir idx).toNat = some b) :
    moveLessonDb lessons lid dir =
      lessons.map (fun l => if l.id = a.id then { l with order_index := b.order_index }
        else if l.id = b.id then { l with order_index := a.order_index } else l) ∧
    a.id ≠ b.id := by
  have hplan : moveLessonPlan lessons lid dir = some (a, b) := by
    unfold moveLessonPlan
    rw [hfind]
    simp only [if_neg (not_lt.2 hnn)]
    rw [hb, ha]

  have hne : (swapTarget dir idx).toNat ≠ idx := by
    cases dir <;> simp only [swapTarget] at hnn ⊢ <;> omega
  have hnodup : ((sortAsc lessons).map Lesson.id).Nodup :=
    (((sortAsc_perm lessons).map Lesson.id).nodup_iff).2 hids
  have hab : a.id ≠ b.id := by
    intro heq
    apply hne
    have ha' : ((sortAsc lessons).map Lesson.id).get? idx = some a.id := by
      rw [List.get?_map, ha]
      rfl
    have hb' : ((sortAsc lessons).map Lesson.id).get? (swapTarget dir idx).toNat =
        some b.id := by
      rw [List.get?_map, hb]
      rfl
    have hlt : (swapTarget dir idx).toNat < ((sortAsc lessons).map Lesson.id).length :=
      (List.get?_eq_some.1 hb').1
    exact List.get?_inj hlt hnodup (by rw [hb', ha', heq])
  refine ⟨?_, hab⟩
  simp only [moveLessonDb, hplan]
  exact writeOrder_writeOrder lessons a.id b.id b.order_index a.order_index hab

/-- Witness for `moveLesson_swaps_orders`: on `[A:1, B:2, C:3]`, moving `B`
up yields literally `[A:2, B:1, C:3]`. -/
theorem moveLesson_swaps_orders_witness :
    moveLessonDb demoLessons "B" Direction.up = [⟨"A", 2⟩, ⟨"B", 1⟩, ⟨"C", 3⟩] := by
  have h := moveLesson_swaps_orders demoLessons "B" Direction.up 1 ⟨"B", 2⟩ ⟨"A", 1⟩
    (by decide) (by decide) (by decide) (by decide) (by decide)
  exact h.1.trans (by decide)

/-- C10: when the moved lesson sits at the top (`direction = up`, `idx = 0`)
or at the bottom (`direction = down`, `idx` last) of the sorted list, the
operation takes the early-return path: no write call is planned, the lesson
table is unchanged, and the run surfaces no error whatever the write
outcomes would have been. -/
theorem moveLesson_boundary_noop (lessons : List Lesson) (lid : String)
    (dir : Direction) (idx : ℕ) (r1 r2 : ApiResult)
    (hfind : (sortAsc lessons).findIdx? (fun l => l.id = lid) = some idx)
    (hbound : (dir = Direction.up ∧ idx = 0) ∨
      (dir = Direction.down ∧ idx + 1 = (sortAsc lessons).length)) :
    moveLessonPlan lessons lid dir = none ∧
    moveLessonDb lessons lid dir = lessons ∧
    moveLessonRun lessons lid dir r1 r2 = (lessons, none) := by
  have hplan : moveLessonPlan lessons lid dir = none := by
    rcases hbound with ⟨hd, hi⟩ | ⟨hd, hi⟩
    · subst hd hi
      unfold moveLessonPlan
      rw [hfind]
      simp [swapTarget]
    · subst hd
      unfold moveLessonPlan
      rw [hfind]
      simp only [swapTarget]
      rw [if_neg (by omega)]
      have htn : (((idx : ℤ)) + 1).toNat = idx + 1 := by omega
      rw [htn, List.get?_eq_none.2 (by omega)]
  exact ⟨hplan, by simp [moveLessonDb, hplan], by simp [moveLessonRun, hplan]⟩

/-- Witness for `moveLesson_boundary_noop`: moving `A` (first) up on
`[A:1, B:2, C:3]` plans no write and changes nothing. -/
theorem moveLesson_boundary_noop_witness :
    moveLessonPlan demoLessons "A" Direction.up = none ∧
    moveLessonDb demoLessons "A" Direction.up = demoLessons := by
  have h := moveLesson_boundary_noop demoLessons "A" Direction.up 0
    ApiResult.ok ApiResult.ok (by decide) (Or.inl ⟨rfl, rfl⟩)
  exact ⟨h.1, h.2.1⟩

/-- C3 amended: whenever `moveLesson` reaches its two writes, the error
surfaced to the user is exactly the second call's raw `error` string — the
same generic message for a partial failure (first write succeeded) as for a
total failure (both failed) — and when the second write succeeds no error is
surfaced at all, even if the first write failed and left the two rows
inconsistent.  No distinct partial-failure signal exists. -/
theorem moveLesson_second_error_generic (lessons : List Lesson) (lid : String)
    (dir : Direction) (a b : Lesson) (r1 : ApiResult) (m : String)
    (hplan : moveLessonPlan lessons lid dir = some (a, b)) :
    (moveLessonRun lessons lid dir r1 (ApiResult.err m)).2 = some m ∧
    (moveLessonRun lessons lid dir r1 ApiResult.ok).2 = none ∧
    (moveLessonRun lessons lid dir r1 (ApiResult.err m)).2 =
      (moveLessonRun lessons lid dir (ApiResult.err m) (ApiResult.err m)).2 := by
  refine ⟨?_, ?_, ?_⟩ <;> simp [moveLessonRun, hplan]

/-- Witness for `moveLesson_second_error_generic` at a concrete input. -/
theorem moveLesson_second_error_generic_witness :
    (moveLessonRun demoLessons "B" Direction.up ApiResult.ok (ApiResult.err "boom")).2 =
      some "boom" := by
  exact (moveLesson_second_error_generic demoLessons "B" Direction.up
    ⟨"B", 2⟩ ⟨"A", 1⟩ ApiResult.ok "boom" (by decide)).1

/-- C3 counterexample: with `[A:1, B:2, C:3]`, moving `B` up when the first
write succeeds and the second fails leaves the rows inconsistent
(`A` and `B` both carry order `1`), yet the caller-visible outcome — the
`setError` message — is the raw string of the failed update, identical to
the outcome of a run in which the first write also failed; the failure is
not surfaced as a distinct partial-failure value. -/
theorem moveLesson_no_distinct_signal :
    (moveLessonRun demoLessons "B" Direction.up ApiResult.ok
        (ApiResult.err "update failed")).1 = [⟨"A", 1⟩, ⟨"B", 1⟩, ⟨"C", 3⟩] ∧
    (moveLessonRun demoLessons "B" Direction.up ApiResult.ok
        (ApiResult.err "update failed")).2 = some "update failed" ∧
    (moveLessonRun demoLessons "B" Direction.up ApiResult.ok
        (ApiResult.err "update failed")).2 =
      (moveLessonRun demoLessons "B" Direction.up (ApiResult.err "update failed")
        (ApiResult.err "update failed")).2 := by
  decide

/-! ## C7: resource scoping -/

/-- Membership in one insertion step of the descending sort. -/
theorem mem_insertDesc (r x : Resource) (l : List Resource) :
    x ∈ insertDesc r l ↔ x = r ∨ x ∈ l := by
  induction l with
  | nil => simp [insertDesc]
  | cons y ys ih =>
    unfold insertDesc
    by_cases h : y.created_at < r.created_at
    · rw [if_pos h]
      simp
    · rw [if_neg h]
      simp only [List.mem_cons, ih]
      tauto

/-- The descending sort keeps exactly the input elements. -/
theorem mem_sortDesc (x : Resource) (l : List Resource) :
    x ∈ sortDesc l ↔ x ∈ l := by
  induction l with
  | nil => simp [sortDesc]
  | cons y ys ih =>
    simp only [sortDesc, List.foldr_cons] at ih ⊢
    rw [mem_insertDesc]
    simp [ih]

/-- Inserting into a run sorted by `created_at` descending keeps it sorted. -/
theorem pairwise_insertDesc (r : Resource) (l : List Resource)
    (h : l.Pairwise (fun x y => y.created_at ≤ x.created_at)) :
    (insertDesc r l).Pairwise (fun x y => y.created_at ≤ x.created_at) := by
  induction l with
  | nil => simp [insertDesc]
  | cons y ys ih =>
    rcases List.pairwise_cons.1 h with ⟨hy, hys⟩
    unfold insertDesc
    by_cases hlt : y.created_at < r.created_at
    · rw [if_pos hlt]
      refine List.pairwise_cons.2 ⟨?_, h⟩
      intro b hb
      rcases List.mem_cons.1 hb with rfl | hb
      · exact le_of_lt hlt
      · exact le_trans (hy b hb) (le_of_lt hlt)
    · rw [if_neg hlt]
      refine List.pairwise_cons.2 ⟨?_, ih hys⟩
      intro b hb
      rcases (mem_insertDesc r b ys).1 hb with rfl | hb
      · exact not_lt.1 hlt
      · exact hy b hb

/-- The query result is sorted by `created_at` descending. -/
theorem pairwise_sortDesc (l : List Resource) :
    (sortDesc l).Pairwise (fun x y => y.created_at ≤ x.created_at) := by
  induction l with
  | nil => simp [sortDesc]
  | cons y ys ih => exact pairwise_insertDesc y (sortDesc ys) ih

/-- C7: with a `lessonId` the query returns exactly the course's resources
scoped to that lesson or to no lesson (never one scoped to a different
lesson); without a `lessonId` it returns all resources of the course; the
result is always ordered most-recently-created first. -/
theorem resource_scoping (rs : List Resource) (cid L : String) (r : Resource)
    (olid : Option String) :
    (r ∈ resolveVisible rs cid (some L) ↔
      r ∈ rs ∧ r.course_id = cid ∧ (r.lesson_id = some L ∨ r.lesson_id = none)) ∧
    (r ∈ resolveVisible rs cid none ↔ r ∈ rs ∧ r.course_id = cid) ∧
    (∀ L' : String, r.lesson_id = some L' → L' ≠ L →
      r ∉ resolveVisible rs cid (some L)) ∧
    (resolveVisible rs cid olid).Pairwise (fun x y => y.created_at ≤ x.created_at) := by
  have hsome : r ∈ resolveVisible rs cid (some L) ↔
      r ∈ rs ∧ r.course_id = cid ∧ (r.lesson_id = some L ∨ r.lesson_id = none) := by
    rw [resolveVisible, mem_sortDesc, List.mem_filter]
    simp [matchesScope, and_assoc]
  refine ⟨hsome, ?_, ?_, pairwise_sortDesc _⟩
  · rw [resolveVisible, mem_sortDesc, List.mem_filter]
    simp [matchesScope]
  · intro L' hL' hne hmem
    rcases (hsome.1 hmem).2.2 with h | h
    · rw [hL'] at h
      exact hne (Option.some_injective _ h)
    · rw [hL'] at h
      cases h

/-- Witness for `resource_scoping`: the resource scoped to lesson `L2` is
not visible when viewing lesson `L1` of the same course. -/
theorem resource_scoping_witness :
    (⟨"r2", "c1", some "L2", 20⟩ : Resource) ∉
      resolveVisible demoResources "c1" (some "L1") := by
  exact (resource_scoping demoResources "c1" "L1" ⟨"r2", "c1", some "L2", 20⟩
    (some "L1")).2.2.1 "L2" rfl (by decide)

/-! ## C8: video URL classification -/

/-- C8: the classifier maps the four literal provider URLs of the
specification to their embed URLs, and — because the `loom.com/share/`
test comes first in the conditional chain — any URL containing
`loom.com/share/` is classified as a Loom embed and never rendered as a
direct CDN/MP4 video, even when it also contains `.mp4` or `cdn.loom.com`. -/
theorem video_url_classification :
    classifyVideo "https://www.loom.com/share/abc123" =
      VideoView.loomEmbed "https://www.loom.com/embed/abc123" ∧
    classifyVideo "https://youtu.be/XYZ?t=5" =
      VideoView.youtubeEmbed "https://www.youtube.com/embed/XYZ" ∧
    classifyVideo "https://www.youtube.com/watch?v=XYZ&list=foo" =
      VideoView.youtubeEmbed "https://www.youtube.com/embed/XYZ" ∧
    classifyVideo "https://vimeo.com/12345" =
      VideoView.vimeoEmbed "https://player.vimeo.com/video/12345" ∧
    (∀ url : String, hasSubstr url "loom.com/share/" = true →
      classifyVideo url =
        VideoView.loomEmbed (replaceFirst url "loom.com/share/" "loom.com/embed/") ∧
      ∀ s : String, classifyVideo url ≠ VideoView.fileVideo s) := by
  refine ⟨by decide, by decide, by decide, by decide, ?_⟩
  intro url h
  constructor
  · simp [classifyVideo, h]
  · intro s hcontra
    simp [classifyVideo, h] at hcontra

/-- Witness for `video_url_classification`: a Loom share URL that also ends
in `.mp4` is still classified as a Loom embed. -/
theorem video_url_classification_witness :
    classifyVideo "https://www.loom.com/share/demo.mp4" =
      VideoView.loomEmbed "https://www.loom.com/embed/demo.mp4" ∧
    hasSubstr "https://www.loom.com/share/demo.mp4" ".mp4" = true := by
  refine ⟨?_, by decide⟩
  exact ((video_url_classification.2.2.2.2 "https://www.loom.com/share/demo.mp4"
    (by decide)).1).trans (by decide)

/-! ## C9: order assignment for a new lesson -/

/-- The start value is below the running maximum. -/
theorem le_foldl_max_init (xs : List ℤ) : ∀ x : ℤ, x ≤ xs.foldl max x := by
  induction xs with
  | nil => intro x; simp
  | cons z zs ih =>
    intro x
    simp only [List.foldl_cons]
    exact le_trans (le_max_left x z) (ih (max x z))

/-- Every listed order is below the running maximum. -/
theorem mem_le_foldl_max (xs : List ℤ) : ∀ x y : ℤ, y ∈ xs → y ≤ xs.foldl max x := by
  induction xs with
  | nil => intro x y h; cases h
  | cons z zs ih =>
    intro x y h
    simp only [List.foldl_cons]
    rcases List.mem_cons.1 h with rfl | h
    · exact le_trans (le_max_right x y) (le_foldl_max_init zs (max x y))
    · exact ih (max x z) y h

/-- The running maximum is the start value or a listed order. -/
theorem foldl_max_mem (xs : List ℤ) : ∀ x : ℤ, xs.foldl max x = x ∨ xs.foldl max x ∈ xs := by
  induction xs with
  | nil => intro x; left; rfl
  | cons z zs ih =>
    intro x
    simp only [List.foldl_cons]
    rcases ih (max x z) with h | h
    · rcases max_choice x z with hm | hm
      · left
        rw [h, hm]
      · right
        rw [h, hm]
        exact List.mem_cons_self z zs
    · right
      exact List.mem_cons_of_mem z h

/-- C9: a valid requested `order_index` is stored verbatim — also when it
collides with an order already in use, duplicates are permitted — while an
absent or non-numeric request gets `max(existing orders, default 0) + 1`:
one more than the greatest existing order, `1` for an empty course. -/
theorem assign_order_spec (n : ℤ) (existing : List ℤ) :
    assignOrderForNewLesson (ReqOrder.valid n) existing = n ∧
    assignOrderForNewLesson ReqOrder.absent existing = maxOrderOr0 existing + 1 ∧
    assignOrderForNewLesson ReqOrder.invalid existing = maxOrderOr0 existing + 1 ∧
    maxOrderOr0 [] = 0 ∧
    (existing ≠ [] → maxOrderOr0 existing ∈ existing) ∧
    ∀ x ∈ existing, x ≤ maxOrderOr0 existing := by
  refine ⟨rfl, rfl, rfl, rfl, ?_, ?_⟩
  · intro hne
    cases existing with
    | nil => exact absurd rfl hne
    | cons x xs =>
      simp only [maxOrderOr0]
      rcases foldl_max_mem xs x with h | h
      · rw [h]
        exact List.mem_cons_self x xs
      · exact List.mem_cons_of_mem x h
  · intro x hx
    cases existing with
    | nil => cases hx
    | cons y ys =>
      simp only [maxOrderOr0]
      rcases List.mem_cons.1 hx with rfl | hx
      · exact le_foldl_max_init ys x
      · exact mem_le_foldl_max ys y x hx

/-- Witness for `assign_order_spec` at a concrete input: a requested order
`5` is stored verbatim although `5` is already in use, and the fallback for
an absent order on orders `[3, 5, 2]` is `6`. -/
theorem assign_order_spec_witness :
    assignOrderForNewLesson (ReqOrder.valid 5) [3, 5, 2] = 5 ∧
    assignOrderForNewLesson ReqOrder.absent [3, 5, 2] = 6 ∧
    maxOrderOr0 [3, 5, 2] ∈ [3, 5, 2] := by
  have h := assign_order_spec 5 [3, 5, 2]
  exact ⟨h.1, h.2.1.trans (by decide), h.2.2.2.2.1 (by decide)⟩

end Salino
